import Mathlib

/-!
Verification of the morlock layout engine (src/morlock.go).

The engine is embedded shallowly:

* Go `*Pen` (a nullable pointer) becomes `Option Pen`; the `nil` receiver
  checks at the top of every method become the `none` branches.
* The termbox cell buffer is a `Screen`: the screen width (stride) together
  with the linear list of cells, exactly as `termbox.CellBuffer()` exposes it.
* Go `int` becomes `Int`.  Go strings are byte lists (`List Nat`); the
  `unicode/utf8` decoding used by `range` over a string and by
  `utf8.RuneCountInString` is modelled byte-for-byte after the Go standard
  library rules (ASCII, 2/3/4-byte sequences, surrogate and overlong
  rejection, `U+FFFD` with width 1 for invalid bytes).
* Go run-time panics (out-of-range slice indexing) are modelled by `Option`:
  a function returns `none` exactly when the Go original would panic.
-/

namespace Morlock

/-- A screen cell, after `termbox.Cell`: a rune (as its code point) plus
foreground and background attributes (opaque tokens, `termbox.Attribute`). -/
structure Cell where
  ch : Nat
  fg : Nat
  bg : Nat
deriving DecidableEq

/-- The termbox backend buffer: the stride `sw` returned by `termbox.Size`
and the linear cell list returned by `termbox.CellBuffer`. -/
structure Screen where
  sw : Nat
  cells : List Cell
deriving DecidableEq

/-- The `Pen` struct of src/morlock.go: the clip rectangle `x, y, w, h`,
the cursor `dx, dy` inside it, and the current colors `fg, bg`. -/
structure Pen where
  x : Int
  y : Int
  w : Int
  h : Int
  dx : Int
  dy : Int
  fg : Nat
  bg : Nat
deriving DecidableEq

/-- `Pen.Clip` from src/morlock.go.  A `nil` pen clips to `nil`; otherwise a
fresh pen at absolute origin `(p.x+x, p.y+y)` with extent `(w, h)` is
returned, unless one of the six guard cases fires (derived origin negative,
negative extent, or the derived right/bottom edge beyond the parent's).
The fresh pen has zero cursor (Go `new(Pen)`) and inherits the colors. -/
def Clip (p : Option Pen) (x y w h : Int) : Option Pen :=
  match p with
  | none => none
  | some p =>
    let ox := p.x + x
    let oy := p.y + y
    if ox < 0 ∨ oy < 0 ∨ w < 0 ∨ h < 0 ∨ p.x + p.w < ox + w ∨ p.y + p.h < oy + h then
      none
    else
      some ⟨ox, oy, w, h, 0, 0, p.fg, p.bg⟩

/-- `Pen.Width`: 0 for a `nil` pen. -/
def Width : Option Pen → Int
  | none => 0
  | some p => p.w

/-- `Pen.Height`: 0 for a `nil` pen. -/
def Height : Option Pen → Int
  | none => 0
  | some p => p.h

/-- `Pen.SetFg`: mutates the pen's foreground; no-op on `nil`. -/
def SetFg : Option Pen → Nat → Option Pen
  | none, _ => none
  | some p, c => some { p with fg := c }

/-- `Pen.SetBg`: mutates the pen's background; no-op on `nil`. -/
def SetBg : Option Pen → Nat → Option Pen
  | none, _ => none
  | some p, c => some { p with bg := c }

/-- Sequential cell writes `b[0] … b[count-1] = cell` starting at absolute
index `base`, as in the inner loop of `Pen.Clear`.  Returns `none` when a
write would index past the end of the buffer (Go: index out of range). -/
def setRun : List Cell → Nat → Cell → Nat → Option (List Cell)
  | cells, _, _, 0 => some cells
  | cells, base, cell, n + 1 =>
    if base < cells.length then setRun (cells.set base cell) (base + 1) cell n
    else none

/-- The row loop of `Pen.Clear`: for `y = y0, y0+1, …` (`rows` iterations),
reslice the buffer at `y*sw + px` (panicking when that offset is outside the
buffer) and blank `w` cells from there.  Note the source uses `y*sw + p.x`
with no `p.y` term. -/
def clearRows (sw : Nat) (px : Int) (w : Nat) (cell : Cell) :
    List Cell → Nat → Nat → Option (List Cell)
  | cells, _, 0 => some cells
  | cells, y, rows + 1 =>
    let k : Int := (y * sw : Nat) + px
    if k < 0 ∨ (cells.length : Int) < k then none
    else
      match setRun cells k.toNat cell w with
      | none => none
      | some cells' => clearRows sw px w cell cells' (y + 1) rows

/-- `Pen.Clear` from src/morlock.go: no-op on `nil`; otherwise fill with the
blank cell `{' ', fg, bg}` the `p.h` rows starting at buffer offset
`y*sw + p.x` (for `y = 0 … p.h-1`), then reset the cursor.  The loops run
`max 0 p.h` and `max 0 p.w` times, hence the `toNat`s. -/
def Clear (scr : Screen) (p : Option Pen) : Option (Screen × Option Pen) :=
  match p with
  | none => some (scr, none)
  | some p =>
    let cell : Cell := ⟨32, p.fg, p.bg⟩
    match clearRows scr.sw p.x p.w.toNat cell scr.cells 0 p.h.toNat with
    | none => none
    | some cells' => some (⟨scr.sw, cells'⟩, some { p with dx := 0, dy := 0 })

/-- Continuation-byte test of the Go `unicode/utf8` decoder. -/
def utf8Cont (b : Nat) : Bool :=
  decide (0x80 ≤ b ∧ b < 0xC0)

/-- One step of Go's `utf8.DecodeRuneInString` over a byte list: returns the
decoded code point and its byte width.  Invalid, truncated, overlong or
surrogate sequences decode as `(0xFFFD, 1)`, exactly as in the Go standard
library (this function is the behaviour of the external `unicode/utf8`
collaborator, which the repository calls but does not define). -/
def utf8DecodeRune : List Nat → Nat × Nat
  | [] => (0xFFFD, 0)
  | b0 :: rest =>
    if b0 < 0x80 then (b0, 1)
    else if b0 < 0xC2 then (0xFFFD, 1)
    else if b0 < 0xE0 then
      match rest with
      | b1 :: _ =>
        if utf8Cont b1 then ((b0 - 0xC0) * 0x40 + (b1 - 0x80), 2) else (0xFFFD, 1)
      | [] => (0xFFFD, 1)
    else if b0 < 0xF0 then
      match rest with
      | b1 :: b2 :: _ =>
        if (if b0 = 0xE0 then decide (0xA0 ≤ b1 ∧ b1 < 0xC0)
            else if b0 = 0xED then decide (0x80 ≤ b1 ∧ b1 < 0xA0)
            else utf8Cont b1) && utf8Cont b2 then
          ((b0 - 0xE0) * 0x1000 + (b1 - 0x80) * 0x40 + (b2 - 0x80), 3)
        else (0xFFFD, 1)
      | _ => (0xFFFD, 1)
    else if b0 < 0xF5 then
      match rest with
      | b1 :: b2 :: b3 :: _ =>
        if (if b0 = 0xF0 then decide (0x90 ≤ b1 ∧ b1 < 0xC0)
            else if b0 = 0xF4 then decide (0x80 ≤ b1 ∧ b1 < 0x90)
            else utf8Cont b1) && utf8Cont b2 && utf8Cont b3 then
          ((b0 - 0xF0) * 0x40000 + (b1 - 0x80) * 0x1000 + (b2 - 0x80) * 0x40 + (b3 - 0x80), 4)
        else (0xFFFD, 1)
      | _ => (0xFFFD, 1)
    else (0xFFFD, 1)

/-- Go `for i, r := range s`: the list of (starting byte offset, rune) pairs
of a byte string.  Each decode step consumes at least one byte, so fuel
equal to the byte length makes the recursion structural without changing
the result. -/
def rangeStrAux : Nat → Nat → List Nat → List (Nat × Nat)
  | 0, _, _ => []
  | _ + 1, _, [] => []
  | fuel + 1, i, b :: bs =>
    let d := utf8DecodeRune (b :: bs)
    (i, d.1) :: rangeStrAux fuel (i + d.2) ((b :: bs).drop d.2)

/-- Go `for i, r := range s` over the whole byte string `s`. -/
def rangeStr (s : List Nat) : List (Nat × Nat) :=
  rangeStrAux s.length 0 s

/-- `utf8.RuneCountInString`: the number of runes `range` yields. -/
def runeCount (s : List Nat) : Nat :=
  (rangeStr s).length

/-- The write loop of `Pen.printRow`: `row[i] = Cell{fg, bg, r}` for each
`(i, r)` that `range` yields, where `row` starts at buffer index `k` and has
length `rowLen`.  The first index `i ≥ rowLen` is an out-of-range slice
index in Go, modelled as `none`. -/
def writeCells (fg bg : Nat) : List Cell → Nat → Nat → List (Nat × Nat) → Option (List Cell)
  | cells, _, _, [] => some cells
  | cells, k, rowLen, (i, r) :: rest =>
    if i < rowLen then writeCells fg bg (cells.set (k + i) ⟨r, fg, bg⟩) k rowLen rest
    else none

/-- `Pen.printRow` from src/morlock.go (the non-`nil` receiver case; `Print`
only calls it on a non-`nil` pen).  `row := buf[x+y*stride:][:p.w-p.dx]`
panics when the start offset is outside the buffer or the length is
negative or larger than what remains; then, when the row is shorter than
the rune count `ct`, the source reslices `s` to its first `ct` **bytes**
(`s = s[:ct]`); finally `range` writes one cell per rune at the rune's byte
offset, panicking at the first offset past the row.  Returns the written
screen, the pen with `dx` advanced by `len(row)`, and `len(row)`. -/
def printRow (scr : Screen) (p : Pen) (s : List Nat) : Option (Screen × Pen × Int) :=
  let x := p.dx + p.x
  let y := p.dy + p.y
  let k := x + y * (scr.sw : Int)
  if k < 0 ∨ (scr.cells.length : Int) < k then none
  else
    let rowLen := p.w - p.dx
    if rowLen < 0 ∨ (scr.cells.length : Int) - k < rowLen then none
    else
      let ct := runeCount s
      let s' := if rowLen < (ct : Int) then s.take ct else s
      match writeCells p.fg p.bg scr.cells k.toNat rowLen.toNat (rangeStr s') with
      | none => none
      | some cells' => some (⟨scr.sw, cells'⟩, { p with dx := p.dx + rowLen }, rowLen)

/-- The loop of `Pen.Print`: while `n < len(s) && p.dy < p.h`, feed the byte
suffix `s[n:]` to `printRow`, advance `n` by its return value, and move the
cursor to the start of the next row.  Every iteration increments `dy` by
exactly one and requires `dy < h` to run, so the body executes at most
`(h - dy).toNat` times; with that much fuel the fuel-exhaustion branch is
reached only when `dy ≥ h`, where the Go loop exits with the same state. -/
def PrintAux : Nat → Screen → Pen → List Nat → Nat → Option (Screen × Pen)
  | 0, scr, p, _, _ => some (scr, p)
  | fuel + 1, scr, p, s, n =>
    if n < s.length ∧ p.dy < p.h then
      match printRow scr p (s.drop n) with
      | none => none
      | some (scr', q, ret) =>
        PrintAux fuel scr' { q with dx := 0, dy := q.dy + 1 } s (n + ret.toNat)
    else some (scr, p)

/-- `Pen.Print` from src/morlock.go: no-op on `nil`, otherwise the wrapped
row loop starting at byte offset 0. -/
def Print (scr : Screen) (p : Option Pen) (s : List Nat) : Option (Screen × Option Pen) :=
  match p with
  | none => some (scr, none)
  | some p =>
    match PrintAux (p.h - p.dy).toNat scr p s 0 with
    | none => none
    | some (scr', p') => some (scr', some p')

/-- `Pen.Println` from src/morlock.go: no-op on `nil`, otherwise `Print`
followed by forcing the cursor to the start of the next row. -/
def Println (scr : Screen) (p : Option Pen) (s : List Nat) : Option (Screen × Option Pen) :=
  match p with
  | none => some (scr, none)
  | some p =>
    match Print scr (some p) s with
    | none => none
    | some (scr', some p') => some (scr', some { p' with dx := 0, dy := p'.dy + 1 })
    | some (scr', none) => some (scr', none)

/-- The Go `Widget` interface: declared width and height requirements
(min, max) and a paint operation.  `draw` takes the screen and the pen and
returns the written screen, or `none` when the Go original would panic
(pen mutation never outlives a `Draw` call in the source: every caller
hands each child a fresh clipped pen and never reads a pen after passing
it on, so `draw` need not return the pen). -/
structure WidgetI where
  reqWidth : Int × Int
  reqHeight : Int × Int
  draw : Screen → Option Pen → Option Screen

/-- One pass of the round-robin loop of `fitSize`: every entry `(sz, max)`
with `sz != max` is incremented. -/
def fitStep : List (Int × Int) → List (Int × Int) :=
  List.map (fun q => if q.1 = q.2 then q else (q.1 + 1, q.2))

/-- How many entries a `fitStep` pass increments, i.e. how much the pass
decrements `n`; also the value of the source's `more` flag (a pass sets
`more` exactly when it finds some `sz[i] != max[i]`). -/
def fitActive (l : List (Int × Int)) : Nat :=
  l.countP (fun q => q.1 != q.2)

/-- The `for n > 0 && more` loop of `fitSize`.  The source runs a pass when
`n > 0` and the previous pass incremented something (with `more` seeded to
`true`); a pass over a state with no active entry changes nothing and ends
the loop, so checking `0 < fitActive l` before the pass yields the same
final state.  Each executed pass decrements `n` by `fitActive l ≥ 1`, so
the loop exits within `n.toNat` passes; with that much fuel the
fuel-exhaustion branch is reached only when `n ≤ 0`, where the Go loop
also exits with the same state. -/
def fitLoop : Nat → Int → List (Int × Int) → List (Int × Int)
  | 0, _, l => l
  | fuel + 1, n, l =>
    if 0 < n ∧ 0 < fitActive l then fitLoop fuel (n - fitActive l) (fitStep l)
    else l

/-- `fitSize` from src/morlock.go: `sz[i], max[i] = sel(t[i])`, `n` minus
the sum of the selected minimums, then the round-robin growth loop; the
final `sz` array is returned. -/
def fitSize (n : Int) (ts : List WidgetI) (sel : WidgetI → Int × Int) : List Int :=
  let reqs := ts.map sel
  let n' := n - (reqs.map Prod.fst).sum
  (fitLoop n'.toNat n' reqs).map Prod.fst

/-- `Label.ReqWidth` returns `len(t)` twice: the **byte** length of the Go
string.  `Label.ReqHeight` is `(1, 1)`; `Label.Draw` is `p.Print(string(t))`. -/
def labelW (s : List Nat) : WidgetI where
  reqWidth := ((s.length : Int), (s.length : Int))
  reqHeight := (1, 1)
  draw := fun scr p =>
    match Print scr p s with
    | none => none
    | some (scr', _) => some scr'

/-- `Blank`: the configured pairs verbatim; `Draw` paints nothing. -/
def blankW (minW maxW minH maxH : Int) : WidgetI where
  reqWidth := (minW, maxW)
  reqHeight := (minH, maxH)
  draw := fun scr _ => some scr

/-- `Tint`: requirements delegate to the child; `Draw` overrides the pen's
colors (only when non-zero) before delegating. -/
def tintW (fg bg : Nat) (t : WidgetI) : WidgetI where
  reqWidth := t.reqWidth
  reqHeight := t.reqHeight
  draw := fun scr p =>
    let p := if fg ≠ 0 then SetFg p fg else p
    let p := if bg ≠ 0 then SetBg p bg else p
    t.draw scr p

/-- `Row.ReqWidth`: the children's (min, max) pairs are summed. -/
def rowReqWidth (ts : List WidgetI) : Int × Int :=
  ts.foldl (fun acc t => (acc.1 + t.reqWidth.1, acc.2 + t.reqWidth.2)) (0, 0)

/-- `Row.ReqHeight`: componentwise running maximum (`if m > min`/`if n > max`)
of the children's height pairs, from `(0, 0)`. -/
def rowReqHeight (ts : List WidgetI) : Int × Int :=
  ts.foldl
    (fun acc t =>
      ((if t.reqHeight.1 > acc.1 then t.reqHeight.1 else acc.1),
       (if t.reqHeight.2 > acc.2 then t.reqHeight.2 else acc.2)))
    (0, 0)

/-- The cell loop of `Row.Draw`: child `i` is drawn on `p.Clip(x, 0, sz[i], h)`
with `x` advanced by `sz[i]`. -/
def drawRowCells : Screen → Option Pen → Int → Int → List (WidgetI × Int) → Option Screen
  | scr, _, _, _, [] => some scr
  | scr, p, x, h, (t, tw) :: rest =>
    match t.draw scr (Clip p x 0 tw h) with
    | none => none
    | some scr' => drawRowCells scr' p (x + tw) h rest

/-- `Row.Draw`: negotiate widths with `fitSize(p.Width(), …, ReqWidth)`,
then draw each child on a clipped pen of its allocated width and the full
height (the source indexes `sz[i]`, which the zip reproduces since
`fitSize` preserves length). -/
def rowDraw (ts : List WidgetI) (scr : Screen) (p : Option Pen) : Option Screen :=
  drawRowCells scr p 0 (Height p) (ts.zip (fitSize (Width p) ts (fun t => t.reqWidth)))

/-- The `Row` widget. -/
def rowW (ts : List WidgetI) : WidgetI where
  reqWidth := rowReqWidth ts
  reqHeight := rowReqHeight ts
  draw := rowDraw ts

/-- `Column.ReqWidth`: componentwise running maximum of the children's
width pairs, from `(0, 0)`. -/
def colReqWidth (ts : List WidgetI) : Int × Int :=
  ts.foldl
    (fun acc t =>
      ((if t.reqWidth.1 > acc.1 then t.reqWidth.1 else acc.1),
       (if t.reqWidth.2 > acc.2 then t.reqWidth.2 else acc.2)))
    (0, 0)

/-- `Column.ReqHeight`: the children's (min, max) pairs are summed. -/
def colReqHeight (ts : List WidgetI) : Int × Int :=
  ts.foldl (fun acc t => (acc.1 + t.reqHeight.1, acc.2 + t.reqHeight.2)) (0, 0)

/-- The cell loop of `Column.Draw`: child `i` on `p.Clip(0, y, w, sz[i])`. -/
def drawColCells : Screen → Option Pen → Int → Int → List (WidgetI × Int) → Option Screen
  | scr, _, _, _, [] => some scr
  | scr, p, y, w, (t, th) :: rest =>
    match t.draw scr (Clip p 0 y w th) with
    | none => none
    | some scr' => drawColCells scr' p (y + th) w rest

/-- `Column.Draw`: heights negotiated with `fitSize(p.Height(), …, ReqHeight)`. -/
def colDraw (ts : List WidgetI) (scr : Screen) (p : Option Pen) : Option Screen :=
  drawColCells scr p 0 (Width p) (ts.zip (fitSize (Height p) ts (fun t => t.reqHeight)))

/-- The `Column` widget. -/
def columnW (ts : List WidgetI) : WidgetI where
  reqWidth := colReqWidth ts
  reqHeight := colReqHeight ts
  draw := colDraw ts

/-- `Grid.ReqWidth`: running maxima of the rows' `Row.ReqWidth` pairs,
then `len(t)` is added to both components. -/
def gridReqWidth (rows : List (List WidgetI)) : Int × Int :=
  let mm := rows.foldl
    (fun acc r =>
      let q := rowReqWidth r
      ((if q.1 > acc.1 then q.1 else acc.1), (if q.2 > acc.2 then q.2 else acc.2)))
    (0, 0)
  (mm.1 + rows.length, mm.2 + rows.length)

/-- `Grid.ReqHeight`: the rows' `Row.ReqHeight` pairs are summed. -/
def gridReqHeight (rows : List (List WidgetI)) : Int × Int :=
  rows.foldl
    (fun acc r =>
      let q := rowReqHeight r
      (acc.1 + q.1, acc.2 + q.2))
    (0, 0)

/-- `cols` in `Grid.Draw`: the length of the longest row. -/
def gridCols (rows : List (List WidgetI)) : Nat :=
  rows.foldl (fun a r => if r.length > a then r.length else a) 0

/-- `w[j]` in `Grid.Draw`: the running maximum (from 0) of the minimum
width requirement of the `j`-th cell over the rows that have one.  The
source fills `w` cell-by-cell inside one row/column double loop; the
per-column fold computes the same final array because only the `j`-th
cells touch `w[j]`. -/
def gridColWidth (rows : List (List WidgetI)) (j : Nat) : Int :=
  rows.foldl
    (fun acc r =>
      match r[j]? with
      | some t => if t.reqWidth.1 > acc then t.reqWidth.1 else acc
      | none => acc)
    0

/-- `h[i]` in `Grid.Draw`: the running maximum (from 0) of the minimum
height requirements of row `i`'s cells. -/
def gridRowHeight (r : List WidgetI) : Int :=
  r.foldl (fun acc t => if t.reqHeight.1 > acc then t.reqHeight.1 else acc) 0

/-- The inner cell loop of `Grid.Draw`: cell `j` of a row is drawn on
`p.Clip(x, y, w[j], h[i])` and `x` advances by `w[j]+1` (the one-cell gap). -/
def drawGridCells : Screen → Option Pen → Int → Int → Int → List (WidgetI × Int) → Option Screen
  | scr, _, _, _, _, [] => some scr
  | scr, p, x, y, hi, (t, wj) :: rest =>
    match t.draw scr (Clip p x y wj hi) with
    | none => none
    | some scr' => drawGridCells scr' p (x + wj + 1) y hi rest

/-- The outer row loop of `Grid.Draw`: each row starts at `x = 0` and `y`
advances by `h[i]`. -/
def drawGridRows (ws : List Int) : Screen → Option Pen → Int → List (List WidgetI × Int) → Option Screen
  | scr, _, _, [] => some scr
  | scr, p, y, (r, hi) :: rest =>
    match drawGridCells scr p 0 y hi (r.zip ws) with
    | none => none
    | some scr' => drawGridRows ws scr' p (y + hi) rest

/-- `Grid.Draw`: compute the shared column widths and row heights, then
paint cell-by-cell (the source indexes `w[j]` for `j < len(row) ≤ cols`,
which the zip with the length-`cols` width list reproduces). -/
def gridDraw (rows : List (List WidgetI)) (scr : Screen) (p : Option Pen) : Option Screen :=
  let ws := (List.range (gridCols rows)).map (gridColWidth rows)
  drawGridRows ws scr p 0 (rows.zip (rows.map gridRowHeight))

/-- The `Grid` widget. -/
def gridW (rows : List (List WidgetI)) : WidgetI where
  reqWidth := gridReqWidth rows
  reqHeight := gridReqHeight rows
  draw := gridDraw rows

/-- A marker buffer for the paint theorems: `n` cells holding `'.'` (46)
with default colors, so that untouched cells are visible. -/
def mark (n : Nat) : List Cell := List.replicate n ⟨46, 0, 0⟩

/-- Rewriting the source's running-maximum step `if x > a then x else a`
as `max a x`. -/
theorem if_gt_eq_max (a x : Int) : (if x > a then x else a) = max a x := by
  rcases le_total x a with h | h
  · rw [if_neg (not_lt.mpr h), max_eq_left h]
  · rcases eq_or_lt_of_le h with rfl | h'
    · simp
    · rw [if_pos h', max_eq_right h]

/-- A `fitStep` pass preserves the list length. -/
theorem fitStep_length (l : List (Int × Int)) : (fitStep l).length = l.length := by
  simp [fitStep]

/-- The round-robin loop preserves the list length. -/
theorem fitLoop_length : ∀ (f : Nat) (n : Int) (l : List (Int × Int)),
    (fitLoop f n l).length = l.length
  | 0, _, _ => rfl
  | f + 1, n, l => by
    rw [fitLoop]
    split
    · rw [fitLoop_length f, fitStep_length]
    · rfl

/-- C8 (confirmed): `fitSize` is total — it is a plain terminating function
of its arguments (the Go loop exits within `n.toNat` passes because every
pass strictly decreases `n`, which the fuelled embedding makes explicit)
and for every integer total and every widget/selector list, including
empty lists and contradictory `min > max` requirements, it returns an
allocation list of the same length as the input. -/
theorem C8_fitSize_total (n : Int) (ts : List WidgetI) (sel : WidgetI → Int × Int) :
    (fitSize n ts sel).length = ts.length := by
  simp [fitSize, fitLoop_length]

/-- C7 (confirmed): every operation on an absent (`nil`) surface is a
no-op: `Clip` yields absent, `Width`/`Height` are 0, and `SetFg`, `SetBg`,
`Clear`, `Print` and `Println` leave the backend buffer and the surface
unchanged (and cannot panic). -/
theorem C7_absent_noops :
    (∀ x y w h : Int, Clip none x y w h = none) ∧
    Width none = 0 ∧ Height none = 0 ∧
    (∀ c : Nat, SetFg none c = none) ∧
    (∀ c : Nat, SetBg none c = none) ∧
    (∀ scr : Screen, Clear scr none = some (scr, none)) ∧
    (∀ (scr : Screen) (s : List Nat), Print scr none s = some (scr, none)) ∧
    (∀ (scr : Screen) (s : List Nat), Println scr none s = some (scr, none)) :=
  ⟨fun _ _ _ _ => rfl, rfl, rfl, fun _ => rfl, fun _ => rfl, fun _ => rfl,
   fun _ _ => rfl, fun _ _ => rfl⟩

/-- C2 (code bug): the clip-containment invariant fails.  On a 10×10 root
surface, `Clip 2 2 4 4` yields a child with rectangle `(2,2,4,4)`, but the
child's own `Clip (-1) 0 4 4` is **not** absent: the guards compare the
derived origin with 0 (the screen origin) instead of the parent's origin,
so the derived surface `(1,2,4,4)` extends left of the child's rectangle
(`1 < 2`), and printing through it writes buffer cell `21` — row 2,
column 1 of the 10-wide screen — a cell outside the child's columns
`[2,6)`. -/
theorem C2_clip_escape :
    Clip (some ⟨0, 0, 10, 10, 0, 0, 0, 0⟩) 2 2 4 4 = some ⟨2, 2, 4, 4, 0, 0, 0, 0⟩ ∧
    Clip (some ⟨2, 2, 4, 4, 0, 0, 0, 0⟩) (-1) 0 4 4 = some ⟨1, 2, 4, 4, 0, 0, 0, 0⟩ ∧
    ¬ ((2 : Int) ≤ 1) ∧
    Print ⟨10, mark 100⟩ (some ⟨1, 2, 4, 4, 0, 0, 0, 0⟩) [65] =
      some (⟨10, (mark 100).set 21 ⟨65, 0, 0⟩⟩, some ⟨1, 2, 4, 4, 0, 1, 0, 0⟩) := by
  decide

/-- C3 (code bug): `Label("hello")` declares width `(5,5)` and height
`(1,1)`, and painting it onto a 5-wide 1-tall surface writes exactly the
five characters at the origin; but painting it onto a 3-wide surface does
**not** write a truncated prefix — the guard `if len(row) < ct` reslices
`s` to `s[:ct]` where `ct` is the rune count (a no-op for ASCII), so the
write loop reaches `row[3]` on a row of length 3 and panics (`none`). -/
theorem C3_label_truncation_panic :
    (labelW [104, 101, 108, 108, 111]).reqWidth = (5, 5) ∧
    (labelW [104, 101, 108, 108, 111]).reqHeight = (1, 1) ∧
    (labelW [104, 101, 108, 108, 111]).draw ⟨5, mark 5⟩ (some ⟨0, 0, 5, 1, 0, 0, 0, 0⟩) =
      some ⟨5, [⟨104, 0, 0⟩, ⟨101, 0, 0⟩, ⟨108, 0, 0⟩, ⟨108, 0, 0⟩, ⟨111, 0, 0⟩]⟩ ∧
    (labelW [104, 101, 108, 108, 111]).draw ⟨3, mark 3⟩ (some ⟨0, 0, 3, 1, 0, 0, 0, 0⟩) = none := by
  decide

/-- C4 (counterexample): for the two-byte text `"é"` (bytes `C3 A9`, one
rune), the declared width is the byte count 2, not the rune count 1. -/
theorem C4_counterexample :
    (labelW [195, 169]).reqWidth = (2, 2) ∧ runeCount [195, 169] = 1 ∧
    ((2 : Int), (2 : Int)) ≠ ((1 : Int), (1 : Int)) := by
  decide

/-- C4 (amended): a Label's declared min and max width equal the **byte**
count of its text, and painting writes one cell per decoded character at
the character's starting **byte offset** in the row, not at its character
position: painting `"éa"` (bytes `C3 A9 61`) on a 3-wide surface writes
`é` to cell 0 and `a` to cell 2, leaving cell 1 untouched. -/
theorem C4_amended :
    (∀ s : List Nat,
      (labelW s).reqWidth = ((s.length : Int), (s.length : Int)) ∧
      (labelW s).reqHeight = (1, 1)) ∧
    (labelW [195, 169, 97]).draw ⟨3, mark 3⟩ (some ⟨0, 0, 3, 1, 0, 0, 0, 0⟩) =
      some ⟨3, [⟨233, 0, 0⟩, ⟨46, 0, 0⟩, ⟨97, 0, 0⟩]⟩ :=
  ⟨fun _ => ⟨rfl, rfl⟩, by decide⟩

/-- C5 (counterexample): `Row{Label("a"), Label("bb")}` drawn into a
10-wide surface does not allocate `[5,5]` — `fitSize` starts from the
labels' minimums `[1,2]`, which already equal their maximums (a Label
declares `min = max = len`), so the loop distributes nothing. -/
theorem C5_counterexample :
    fitSize 10 [labelW [97], labelW [98, 98]] (fun t => t.reqWidth) ≠ [5, 5] := by
  decide

/-- C5 (amended): `Row{Label("a"), Label("bb")}` drawn into a 10-wide,
1-tall surface allocates the final widths `[1, 2]` (each label's min and
max both equal its length, so every participant is already at its maximum
and no extra space is distributed); `a` is written at cell 0 and `bb` at
cells 1–2, left-aligned at the start of each region, and the drawing
leaves the remaining cells of the surface untouched. -/
theorem C5_amended :
    fitSize 10 [labelW [97], labelW [98, 98]] (fun t => t.reqWidth) = [1, 2] ∧
    (rowW [labelW [97], labelW [98, 98]]).draw ⟨10, mark 10⟩ (some ⟨0, 0, 10, 1, 0, 0, 0, 0⟩) =
      some ⟨10, ⟨97, 0, 0⟩ :: ⟨98, 0, 0⟩ :: ⟨98, 0, 0⟩ :: mark 7⟩ := by
  decide

/-- C6 (code bug): `Clear` fills the wrong rows.  The source offsets each
row by `y*sw + p.x` with `y = 0 … p.h-1`, dropping the surface's `p.y`:
on a 1-wide 2-row screen, clearing the surface `(x=0, y=1, w=1, h=1)`
with colors `(5,7)` blanks buffer cell 0 — row 0, outside the surface's
rectangle `[0,1)×[1,2)` — and leaves cell 1, the surface's only cell,
unchanged. -/
theorem C6_clear_wrong_rect :
    Clear ⟨1, [⟨46, 1, 2⟩, ⟨47, 3, 4⟩]⟩ (some ⟨0, 1, 1, 1, 0, 0, 5, 7⟩) =
      some (⟨1, [⟨32, 5, 7⟩, ⟨47, 3, 4⟩]⟩, some ⟨0, 1, 1, 1, 0, 0, 5, 7⟩) ∧
    (⟨47, 3, 4⟩ : Cell) ≠ ⟨32, 5, 7⟩ := by
  decide

/-- The accumulator of `Grid.ReqWidth`'s loop, rewritten as two folds of
`max` over the rows' width requirements. -/
theorem gridReqWidth_foldl (rs : List (List WidgetI)) : ∀ a b : Int,
    rs.foldl
      (fun acc r =>
        let q := rowReqWidth r
        ((if q.1 > acc.1 then q.1 else acc.1), (if q.2 > acc.2 then q.2 else acc.2)))
      (a, b) =
    ((rs.map (fun r => (rowReqWidth r).1)).foldl max a,
     (rs.map (fun r => (rowReqWidth r).2)).foldl max b) := by
  induction rs with
  | nil => intro a b; rfl
  | cons r rs ih =>
    intro a b
    simp only [List.foldl_cons, List.map_cons]
    rw [if_gt_eq_max, if_gt_eq_max]
    exact ih _ _

/-- C9 (confirmed): a Grid's declared minimum width is the maximum over
its rows of the row's minimum width requirement (floored at 0, the loop's
start value) plus the number of rows, and its declared maximum width is
the maximum over its rows of the row's maximum width requirement plus the
number of rows — one padding unit per row, not per column. -/
theorem C9_grid_req_width (rs : List (List WidgetI)) :
    (gridW rs).reqWidth =
      ((rs.map (fun r => (rowReqWidth r).1)).foldl max 0 + (rs.length : Int),
       (rs.map (fun r => (rowReqWidth r).2)).foldl max 0 + (rs.length : Int)) := by
  show gridReqWidth rs = _
  unfold gridReqWidth
  rw [gridReqWidth_foldl]

/-- A `fitStep` pass leaves the maximums unchanged. -/
theorem fitStep_snd (l : List (Int × Int)) : (fitStep l).map Prod.snd = l.map Prod.snd := by
  unfold fitStep
  rw [List.map_map]
  apply List.map_congr_left
  intro a _
  by_cases h : a.1 = a.2 <;> simp [h]

/-- A `fitStep` pass grows the allocation sum by exactly the number of
active entries (the amount the pass subtracts from `n`). -/
theorem fitStep_sum (l : List (Int × Int)) :
    ((fitStep l).map Prod.fst).sum = (l.map Prod.fst).sum + (fitActive l : Int) := by
  induction l with
  | nil => rfl
  | cons a l ih =>
    by_cases h : a.1 = a.2
    · have hstep : fitStep (a :: l) = a :: fitStep l := by
        simp [fitStep, h]
      have hact : fitActive (a :: l) = fitActive l := by
        simp [fitActive, List.countP_cons, h]
      rw [hstep, List.map_cons, List.sum_cons, List.map_cons, List.sum_cons, hact, ih]
      ring
    · have hstep : fitStep (a :: l) = (a.1 + 1, a.2) :: fitStep l := by
        simp [fitStep, h]
      have hact : fitActive (a :: l) = fitActive l + 1 := by
        simp [fitActive, List.countP_cons, h]
      rw [hstep, List.map_cons, List.sum_cons, List.map_cons, List.sum_cons, hact, ih]
      push_cast
      ring

/-- A `fitStep` pass preserves `sz ≤ max`: an entry is only incremented
when `sz ≠ max`, and then `sz < max` gives `sz + 1 ≤ max`. -/
theorem fitStep_le {l : List (Int × Int)} (h : ∀ q ∈ l, q.1 ≤ q.2) :
    ∀ q ∈ fitStep l, q.1 ≤ q.2 := by
  intro q hq
  unfold fitStep at hq
  rw [List.mem_map] at hq
  obtain ⟨a, ha, rfl⟩ := hq
  have := h a ha
  by_cases h' : a.1 = a.2 <;> simp only [h', if_true, if_false, ite_true, ite_false] <;> omega

/-- When no entry is active every allocation equals its maximum. -/
theorem fitActive_eq_zero {l : List (Int × Int)} (h : fitActive l = 0) :
    l.map Prod.fst = l.map Prod.snd := by
  apply List.map_congr_left
  intro a ha
  have := List.countP_eq_zero.mp h a ha
  simpa using this

/-- The round-robin loop leaves the maximums unchanged. -/
theorem fitLoop_snd : ∀ (f : Nat) (n : Int) (l : List (Int × Int)),
    (fitLoop f n l).map Prod.snd = l.map Prod.snd
  | 0, _, _ => rfl
  | f + 1, n, l => by
    rw [fitLoop]
    split
    · rw [fitLoop_snd f, fitStep_snd]
    · rfl

/-- The round-robin loop preserves `sz ≤ max`. -/
theorem fitLoop_le : ∀ (f : Nat) (n : Int) (l : List (Int × Int)),
    (∀ q ∈ l, q.1 ≤ q.2) → ∀ q ∈ fitLoop f n l, q.1 ≤ q.2
  | 0, _, _, h => h
  | f + 1, n, l, h => by
    rw [fitLoop]
    split
    · exact fitLoop_le f _ _ (fitStep_le h)
    · exact h

/-- The round-robin loop never shrinks an allocation. -/
theorem fitLoop_fst_mono : ∀ (f : Nat) (n : Int) (l : List (Int × Int)) (i : Nat)
    (h1 : i < l.length) (h2 : i < (fitLoop f n l).length), l[i].1 ≤ (fitLoop f n l)[i].1 := by
  intro f
  induction f with
  | zero => intro n l i h1 h2; exact le_refl _
  | succ f ih =>
    intro n l i h1 h2
    by_cases hc : 0 < n ∧ 0 < fitActive l
    · have he : fitLoop (f + 1) n l = fitLoop f (n - fitActive l) (fitStep l) := by
        rw [fitLoop, if_pos hc]
      have h1s : i < (fitStep l).length := by rw [fitStep_length]; exact h1
      have h2s : i < (fitLoop f (n - fitActive l) (fitStep l)).length := by
        rw [← he]; exact h2
      have hmono := ih (n - fitActive l) (fitStep l) i h1s h2s
      have hstep : l[i].1 ≤ (fitStep l)[i].1 := by
        have hm : (fitStep l)[i] = if l[i].1 = l[i].2 then l[i] else (l[i].1 + 1, l[i].2) := by
          simp [fitStep]
        rw [hm]
        split
        · exact le_refl _
        · simp only []
          omega
      have hgoal : (fitLoop (f + 1) n l)[i] = (fitLoop f (n - fitActive l) (fitStep l))[i] := by
        simp only [he]
      rw [hgoal]
      exact le_trans hstep hmono
    · have he : fitLoop (f + 1) n l = l := by rw [fitLoop, if_neg hc]
      have hg : (fitLoop (f + 1) n l)[i] = l[i] := by simp only [he]
      rw [hg]

/-- The round-robin loop preserves each entry's maximum pointwise. -/
theorem fitLoop_snd_get : ∀ (f : Nat) (n : Int) (l : List (Int × Int)) (i : Nat)
    (h1 : i < l.length) (h2 : i < (fitLoop f n l).length), (fitLoop f n l)[i].2 = l[i].2 := by
  intro f
  induction f with
  | zero => intro n l i h1 h2; rfl
  | succ f ih =>
    intro n l i h1 h2
    by_cases hc : 0 < n ∧ 0 < fitActive l
    · have he : fitLoop (f + 1) n l = fitLoop f (n - fitActive l) (fitStep l) := by
        rw [fitLoop, if_pos hc]
      have h1s : i < (fitStep l).length := by rw [fitStep_length]; exact h1
      have h2s : i < (fitLoop f (n - fitActive l) (fitStep l)).length := by
        rw [← he]; exact h2
      have hrest := ih (n - fitActive l) (fitStep l) i h1s h2s
      have hstep : (fitStep l)[i].2 = l[i].2 := by
        have hm : (fitStep l)[i] = if l[i].1 = l[i].2 then l[i] else (l[i].1 + 1, l[i].2) := by
          simp [fitStep]
        rw [hm]
        split <;> rfl
      have hgoal : (fitLoop (f + 1) n l)[i] = (fitLoop f (n - fitActive l) (fitStep l))[i] := by
        simp only [he]
      rw [hgoal, hrest, hstep]
    · have he : fitLoop (f + 1) n l = l := by rw [fitLoop, if_neg hc]
      have hg : (fitLoop (f + 1) n l)[i] = l[i] := by simp only [he]
      rw [hg]

/-- Lower bound on the final allocation sum: as long as the budget still
fits under the maximums, the loop distributes all of it (it can only stop
with `n ≤ 0` or with every entry at its maximum). -/
theorem fitLoop_sum_ge : ∀ (f : Nat) (n : Int) (l : List (Int × Int)),
    n.toNat ≤ f → (l.map Prod.fst).sum + n ≤ (l.map Prod.snd).sum →
    (l.map Prod.fst).sum + n ≤ ((fitLoop f n l).map Prod.fst).sum
  | 0, n, l, hf, hm => by
    rw [fitLoop]
    omega
  | f + 1, n, l, hf, hm => by
    rw [fitLoop]
    split
    next hc =>
      have hstep := fitLoop_sum_ge f (n - fitActive l) (fitStep l)
        (by omega)
        (by rw [fitStep_sum, fitStep_snd]; omega)
      rw [fitStep_sum] at hstep
      omega
    next hc =>
      by_cases hn : 0 < n
      · have h0 : fitActive l = 0 := by
          rcases Nat.eq_zero_or_pos (fitActive l) with h | h
          · exact h
          · exact absurd ⟨hn, h⟩ hc
        have hz := fitActive_eq_zero h0
        rw [hz]
        rw [hz] at hm
        omega
      · omega

/-- Upper bound on the final allocation sum: only the last executed pass
can overshoot, and it overshoots by at most `fitActive - 1 ≤ length - 1`
units beyond the budget. -/
theorem fitLoop_sum_le : ∀ (f : Nat) (n : Int) (l : List (Int × Int)),
    ((fitLoop f n l).map Prod.fst).sum ≤
      max ((l.map Prod.fst).sum) ((l.map Prod.fst).sum + n + ((l.length : Int) - 1))
  | 0, _, _ => le_max_left _ _
  | f + 1, n, l => by
    rw [fitLoop]
    split
    next hc =>
      have hstep := fitLoop_sum_le f (n - fitActive l) (fitStep l)
      rw [fitStep_sum, fitStep_length] at hstep
      have hcl : fitActive l ≤ l.length := List.countP_le_length _
      refine le_trans hstep (max_le ?_ ?_)
      · refine le_trans ?_ (le_max_right _ _)
        have h1 : (0 : Int) < n := hc.1
        omega
      · refine le_trans ?_ (le_max_right _ _)
        omega
    next => exact le_max_left _ _

/-- C1 (amended): for every requirement list with `min ≤ max` per entry and
`sum(min) ≤ total ≤ sum(max)`, `fitSize` returns allocations each within
its `[min, max]` bound, whose sum is **at least** `total` and at most
`total + (participants - 1)`: the final round-robin pass completes even
after the budget runs out, so the sum overshoots `total` by up to one
less than the number of participants still below their maximum (and
equals `total` exactly when the budget dies at a pass boundary). -/
theorem C1_amended (n : Int) (ts : List WidgetI) (sel : WidgetI → Int × Int)
    (hreq : ∀ r ∈ ts.map sel, r.1 ≤ r.2)
    (hlo : ((ts.map sel).map Prod.fst).sum ≤ n)
    (hhi : n ≤ ((ts.map sel).map Prod.snd).sum) :
    (∀ (i : Nat) (h1 : i < (ts.map sel).length) (h2 : i < (fitSize n ts sel).length),
      (ts.map sel)[i].1 ≤ (fitSize n ts sel)[i] ∧
      (fitSize n ts sel)[i] ≤ (ts.map sel)[i].2) ∧
    n ≤ (fitSize n ts sel).sum ∧
    (fitSize n ts sel).sum ≤ n + ((ts.length - 1 : Nat) : Int) := by
  have hout : fitSize n ts sel =
      (fitLoop (n - ((ts.map sel).map Prod.fst).sum).toNat
        (n - ((ts.map sel).map Prod.fst).sum) (ts.map sel)).map Prod.fst := rfl
  refine ⟨?_, ?_, ?_⟩
  · intro i h1 h2
    have hL : i < (fitLoop (n - ((ts.map sel).map Prod.fst).sum).toNat
        (n - ((ts.map sel).map Prod.fst).sum) (ts.map sel)).length := by
      rw [hout, List.length_map] at h2
      exact h2
    have hfst : (fitSize n ts sel)[i] =
        (fitLoop (n - ((ts.map sel).map Prod.fst).sum).toNat
          (n - ((ts.map sel).map Prod.fst).sum) (ts.map sel))[i].1 := by
      simp only [hout, List.getElem_map]
    constructor
    · rw [hfst]
      exact fitLoop_fst_mono _ _ _ i h1 hL
    · rw [hfst]
      have hmem := List.getElem_mem (l := fitLoop (n - ((ts.map sel).map Prod.fst).sum).toNat
          (n - ((ts.map sel).map Prod.fst).sum) (ts.map sel)) (n := i) hL
      have hle := fitLoop_le _ _ _ hreq _ hmem
      have hsnd := fitLoop_snd_get _ _ _ i h1 hL
      omega
  · have hge := fitLoop_sum_ge (n - ((ts.map sel).map Prod.fst).sum).toNat
      (n - ((ts.map sel).map Prod.fst).sum) (ts.map sel) (le_refl _) (by omega)
    rw [hout]
    omega
  · have hle := fitLoop_sum_le (n - ((ts.map sel).map Prod.fst).sum).toNat
      (n - ((ts.map sel).map Prod.fst).sum) (ts.map sel)
    rw [hout]
    rcases Nat.eq_zero_or_pos ts.length with hlen | hlen
    · have hnil : ts = [] := List.length_eq_zero.mp hlen
      subst hnil
      simp only [List.map_nil, List.sum_nil] at hlo hhi ⊢
      have hn : n = 0 := le_antisymm hhi hlo
      subst hn
      simp [fitLoop]
    · have hlen' : (ts.map sel).length = ts.length := List.length_map _ _
      rw [hlen'] at hle
      have hmax : max (((ts.map sel).map Prod.fst).sum)
          ((((ts.map sel).map Prod.fst).sum) + (n - ((ts.map sel).map Prod.fst).sum) +
            ((ts.length : Int) - 1)) ≤ n + ((ts.length - 1 : Nat) : Int) := by
        apply max_le <;> omega
      exact le_trans hle hmax

/-- C1 (counterexample): with requirements `[(0,2), (0,2)]` and total 3 —
which satisfy `min ≤ max`, `sum(min) = 0 ≤ 3` and `3 ≤ 4 = sum(max)` —
the allocations sum to 4, not 3: the final pass increments both
participants even though only one unit of budget remained. -/
theorem C1_counterexample :
    (∀ r ∈ [blankW 0 2 0 0, blankW 0 2 0 0].map (fun t => t.reqWidth), r.1 ≤ r.2) ∧
    (([blankW 0 2 0 0, blankW 0 2 0 0].map (fun t => t.reqWidth)).map Prod.fst).sum ≤ 3 ∧
    (3 : Int) ≤ (([blankW 0 2 0 0, blankW 0 2 0 0].map (fun t => t.reqWidth)).map Prod.snd).sum ∧
    (fitSize 3 [blankW 0 2 0 0, blankW 0 2 0 0] (fun t => t.reqWidth)).sum ≠ 3 := by
  decide

/-- Witness for the amended C1 at total 4 and requirements `[(0,2), (0,2)]`:
the hypotheses hold and the allocations sum to exactly 4 within the bound. -/
theorem C1_amended_witness :
    ((([blankW 0 2 0 0, blankW 0 2 0 0].map (fun t => t.reqWidth)).map Prod.fst).sum ≤ (4 : Int)) ∧
    ((4 : Int) ≤ (fitSize 4 [blankW 0 2 0 0, blankW 0 2 0 0] (fun t => t.reqWidth)).sum ∧
      (fitSize 4 [blankW 0 2 0 0, blankW 0 2 0 0] (fun t => t.reqWidth)).sum ≤
        4 + ((([blankW 0 2 0 0, blankW 0 2 0 0] : List WidgetI).length - 1 : Nat) : Int)) :=
  ⟨by decide,
   (C1_amended 4 [blankW 0 2 0 0, blankW 0 2 0 0] (fun t => t.reqWidth)
      (by decide) (by decide) (by decide)).2⟩

/-- `printRow` never moves the cursor row: it only advances `dx`. -/
theorem printRow_dy (scr : Screen) (p : Pen) (s : List Nat) (scr' : Screen) (p' : Pen) (r : Int)
    (h : printRow scr p s = some (scr', p', r)) : p'.dy = p.dy := by
  simp only [printRow] at h
  split at h
  · exact absurd h (by simp)
  · split at h
    · exact absurd h (by simp)
    · split at h
      · exact absurd h (by simp)
      · rw [Option.some.injEq, Prod.mk.injEq, Prod.mk.injEq] at h
        rw [← h.2.1]

/-- Shape of the `Print` loop: a completed run either did not execute the
body at all (state unchanged) or ends with the cursor at column 0 on a
strictly later row — every executed iteration resets `dx` and increments
`dy`. -/
theorem printAux_shape : ∀ (f : Nat) (scr : Screen) (p : Pen) (s : List Nat) (n : Nat)
    (scr' : Screen) (p' : Pen), PrintAux f scr p s n = some (scr', p') →
    p' = p ∨ (p'.dx = 0 ∧ p.dy < p'.dy)
  | 0, scr, p, s, n, scr', p', h => by
    rw [PrintAux, Option.some.injEq, Prod.mk.injEq] at h
    exact Or.inl h.2.symm
  | f + 1, scr, p, s, n, scr', p', h => by
    rw [PrintAux] at h
    split at h
    next hc =>
      cases hsr : printRow scr p (s.drop n) with
      | none => rw [hsr] at h; exact absurd h (by simp)
      | some res =>
        obtain ⟨scr1, q, ret⟩ := res
        rw [hsr] at h
        have hdy : q.dy = p.dy := printRow_dy _ _ _ _ _ _ hsr
        have hrec := printAux_shape f scr1 { q with dx := 0, dy := q.dy + 1 } s (n + ret.toNat)
          scr' p' h
        rcases hrec with h' | ⟨hdx, hlt⟩
        · right
          rw [h']
          exact ⟨rfl, by simp [hdy]⟩
        · right
          refine ⟨hdx, ?_⟩
          have hq : ({ q with dx := 0, dy := q.dy + 1 } : Pen).dy = q.dy + 1 := rfl
          rw [hq] at hlt
          omega
    next =>
      rw [Option.some.injEq, Prod.mk.injEq] at h
      exact Or.inl h.2.symm

/-- C10 (confirmed): every completed `Print` on a non-`nil` surface with
non-empty text and cursor row inside the surface ends with the cursor at
column 0 on a strictly later row — the loop charges each consumed row its
full remaining width (`printRow` returns `len(row) = w - dx` however many
characters it wrote) and then resets `dx` and increments `dy`, so two
consecutive `Print` calls never share a row. -/
theorem C10_print_fresh_row (scr : Screen) (p : Pen) (s : List Nat) (scr' : Screen) (p' : Pen)
    (hs : s ≠ []) (hdy : p.dy < p.h)
    (h : Print scr (some p) s = some (scr', some p')) :
    p'.dx = 0 ∧ p.dy < p'.dy := by
  simp only [Print] at h
  cases hpa : PrintAux (p.h - p.dy).toNat scr p s 0 with
  | none => rw [hpa] at h; exact absurd h (by simp)
  | some res =>
    obtain ⟨scr1, p1⟩ := res
    rw [hpa] at h
    simp only [Option.some.injEq, Prod.mk.injEq] at h
    obtain ⟨hscr, hp⟩ := h
    have hf : (p.h - p.dy).toNat = ((p.h - p.dy).toNat - 1) + 1 := by omega
    rw [hf, PrintAux] at hpa
    split at hpa
    next hc =>
      cases hsr : printRow scr p (s.drop 0) with
      | none => rw [hsr] at hpa; exact absurd hpa (by simp)
      | some res2 =>
        obtain ⟨scr2, q, ret⟩ := res2
        rw [hsr] at hpa
        have hqdy : q.dy = p.dy := printRow_dy _ _ _ _ _ _ hsr
        have hrec := printAux_shape _ _ _ _ _ _ _ hpa
        subst hp
        rcases hrec with h' | ⟨hdx, hlt⟩
        · rw [h']
          exact ⟨rfl, by simp [hqdy]⟩
        · refine ⟨hdx, ?_⟩
          have hq : ({ q with dx := 0, dy := q.dy + 1 } : Pen).dy = q.dy + 1 := rfl
          rw [hq] at hlt
          omega
    next hc =>
      exact absurd ⟨List.length_pos.mpr hs, hdy⟩ hc

/-- Witness for C10: printing `"hi"` on a fresh 2-wide, 1-tall surface
completes with the cursor at column 0 of row 1 (strictly below row 0). -/
theorem C10_print_fresh_row_witness :
    (([104, 105] : List Nat) ≠ []) ∧ ((0 : Int) < 1) ∧
    (⟨0, 0, 2, 1, 0, 1, 0, 0⟩ : Pen).dx = 0 ∧ (0 : Int) < (⟨0, 0, 2, 1, 0, 1, 0, 0⟩ : Pen).dy :=
  ⟨by decide, by decide,
   (C10_print_fresh_row ⟨2, mark 2⟩ ⟨0, 0, 2, 1, 0, 0, 0, 0⟩ [104, 105]
      ⟨2, [⟨104, 0, 0⟩, ⟨105, 0, 0⟩]⟩ ⟨0, 0, 2, 1, 0, 1, 0, 0⟩
      (by decide) (by decide) (by decide)).1,
   (C10_print_fresh_row ⟨2, mark 2⟩ ⟨0, 0, 2, 1, 0, 0, 0, 0⟩ [104, 105]
      ⟨2, [⟨104, 0, 0⟩, ⟨105, 0, 0⟩]⟩ ⟨0, 0, 2, 1, 0, 1, 0, 0⟩
      (by decide) (by decide) (by decide)).2⟩

end Morlock
